import Mathlib

/-!
Shallow embedding of the mesh picking and analysis engine of the
PyRoomStudio viewer (`render2.py`), together with the orbit-camera input
handling described in the project specification.  Machine floats are
modelled by exact rationals; the OpenGL calls are modelled by the plain
data they receive.
-/

deriving instance DecidableEq for Except

namespace PyRoom

/-- A 3-component vector of rationals, modelling a numpy row of 3 floats. -/
structure Vec3 where
  x : ℚ
  y : ℚ
  z : ℚ
  deriving DecidableEq

/-- `np.dot` on 3-vectors. -/
def dot (a b : Vec3) : ℚ := a.x * b.x + a.y * b.y + a.z * b.z

/-- `np.cross` on 3-vectors. -/
def cross (a b : Vec3) : Vec3 :=
  ⟨a.y * b.z - a.z * b.y, a.z * b.x - a.x * b.z, a.x * b.y - a.y * b.x⟩

/-- Componentwise vector addition. -/
def vadd (a b : Vec3) : Vec3 := ⟨a.x + b.x, a.y + b.y, a.z + b.z⟩

/-- Componentwise vector subtraction. -/
def vsub (a b : Vec3) : Vec3 := ⟨a.x - b.x, a.y - b.y, a.z - b.z⟩

/-- Scalar multiplication of a vector. -/
def smul (q : ℚ) (a : Vec3) : Vec3 := ⟨q * a.x, q * a.y, q * a.z⟩

/-- The zero vector. -/
def vzero : Vec3 := ⟨0, 0, 0⟩

/-- The loaded model, as built by `Render.load_model`: a flat list of
vertex rows (`stl_mesh.vectors.reshape(-1, 3)`) and one normal row per
triangle (`stl_mesh.normals`). -/
structure Mesh where
  vertices : List Vec3
  normals : List Vec3
  deriving DecidableEq

/-- Number of triangles scanned by the picking and grouping loops:
`range(0, len(vertices), 3)` yields one index per 3 vertex rows. -/
def numTris (m : Mesh) : ℕ := m.vertices.length / 3

/-- Row `i` of the vertex buffer. -/
def vertexOf (m : Mesh) (i : ℕ) : Vec3 := m.vertices.getD i vzero

/-- Row `i` of the normal buffer. -/
def normalOf (m : Mesh) (i : ℕ) : Vec3 := m.normals.getD i vzero

/-- The three vertices `vertices[3*i : 3*i+3]` of triangle `i`. -/
def triOf (m : Mesh) (i : ℕ) : Vec3 × Vec3 × Vec3 :=
  (vertexOf m (3 * i), vertexOf m (3 * i + 1), vertexOf m (3 * i + 2))

/- ----------------------------------------------------------------
Orbit camera (constants of `render2.py`; the drag/zoom handlers are
modelled from the specification, see below).
---------------------------------------------------------------- -/

/-- Camera state: `camera_distance`, `camera_heading`, `camera_pitch`
plus the bounds copied from the module constants in `Render.__init__`. -/
structure CameraState where
  distance : ℚ
  heading : ℚ
  pitch : ℚ
  minDistance : ℚ
  maxDistance : ℚ
  minPitch : ℚ
  maxPitch : ℚ
  deriving DecidableEq

/-- Initial camera state from the module constants of `render2.py`:
`CAMERA_DIST = 5.0`, `CAMERA_HEADING = 35.0`, `CAMERA_PITCH = 35.0`,
`MIN_DIST = 1.0`, `MAX_DIST = 5.0`, `MIN_PITCH = 0.0`, `MAX_PITCH = 85.0`. -/
def initCameraState : CameraState :=
  { distance := 5, heading := 35, pitch := 35
    minDistance := 1, maxDistance := 5, minPitch := 0, maxPitch := 85 }

/-- A camera-update input event: a pointer drag (heading/pitch deltas in
degrees) or a scroll zoom (distance delta). -/
inductive CameraInput where
  | drag (dxHeading dyPitch : ℚ)
  | zoom (delta : ℚ)
  deriving DecidableEq

/-- Modelled from the spec: the pointer handler that applies drag deltas
lives in `render3.py`, which `main.py` and `main_gui.py` import but which
is not among the sources; `render2.py` only supplies the bounds.  Spec
§4.2: `apply_drag(dx_heading_deg, dy_pitch_deg)`; heading is unbounded,
`pitch ∈ [min_pitch, max_pitch]` is clamped silently. -/
def applyDrag (c : CameraState) (dxHeading dyPitch : ℚ) : CameraState :=
  { c with
    heading := c.heading + dxHeading
    pitch := max c.minPitch (min c.maxPitch (c.pitch + dyPitch)) }

/-- Modelled from the spec: the wheel handler applying zoom deltas lives in
`render3.py`, absent from the sources.  Spec §4.2: `apply_zoom(delta)`;
`distance ∈ [min_distance, max_distance]` is clamped silently. -/
def applyZoom (c : CameraState) (delta : ℚ) : CameraState :=
  { c with
    distance := max c.minDistance (min c.maxDistance (c.distance + delta)) }

/-- Dispatch one camera input event. -/
def applyInput (c : CameraState) : CameraInput → CameraState
  | CameraInput.drag dx dy => applyDrag c dx dy
  | CameraInput.zoom d => applyZoom c d

/-- Run a whole sequence of camera-update inputs from the initial state. -/
def runCamera (inputs : List CameraInput) : CameraState :=
  inputs.foldl applyInput initCameraState

/-- The bounds are fixed and pitch/distance sit inside them. -/
def cameraInv (c : CameraState) : Prop :=
  c.minDistance = 1 ∧ c.maxDistance = 5 ∧ c.minPitch = 0 ∧ c.maxPitch = 85 ∧
    c.minPitch ≤ c.pitch ∧ c.pitch ≤ c.maxPitch ∧
    c.minDistance ≤ c.distance ∧ c.distance ≤ c.maxDistance

lemma cameraInv_init : cameraInv initCameraState := by
  unfold cameraInv initCameraState
  norm_num

lemma cameraInv_applyInput (c : CameraState) (e : CameraInput)
    (h : cameraInv c) : cameraInv (applyInput c e) := by
  obtain ⟨h1, h2, h3, h4, h5, h6, h7, h8⟩ := h
  cases e with
  | drag dx dy =>
    simp only [applyInput, applyDrag, cameraInv]
    refine ⟨h1, h2, h3, h4, le_max_left _ _, ?_, h7, h8⟩
    exact max_le (by rw [h3, h4]; norm_num) (min_le_left _ _)
  | zoom d =>
    simp only [applyInput, applyZoom, cameraInv]
    refine ⟨h1, h2, h3, h4, h5, h6, le_max_left _ _, ?_⟩
    exact max_le (by rw [h1, h2]; norm_num) (min_le_left _ _)

lemma cameraInv_foldl (l : List CameraInput) :
    ∀ c : CameraState, cameraInv c → cameraInv (l.foldl applyInput c) := by
  induction l with
  | nil => intro c h; exact h
  | cons e rest ih =>
    intro c h
    exact ih (applyInput c e) (cameraInv_applyInput c e h)

/-- C4: for every sequence of camera-update inputs (drags and zooms,
including extreme single-step deltas), the resulting camera state keeps
`pitch` inside `[min_pitch, max_pitch] = [0, 85]` and `distance` inside
`[min_distance, max_distance] = [1, 5]`. -/
theorem camera_clamped (inputs : List CameraInput) :
    (runCamera inputs).minPitch = 0 ∧ (runCamera inputs).maxPitch = 85 ∧
    (runCamera inputs).minDistance = 1 ∧ (runCamera inputs).maxDistance = 5 ∧
    0 ≤ (runCamera inputs).pitch ∧ (runCamera inputs).pitch ≤ 85 ∧
    1 ≤ (runCamera inputs).distance ∧ (runCamera inputs).distance ≤ 5 := by
  have h := cameraInv_foldl inputs initCameraState cameraInv_init
  obtain ⟨h1, h2, h3, h4, h5, h6, h7, h8⟩ := h
  unfold runCamera
  refine ⟨h3, h4, h1, h2, ?_, ?_, ?_, ?_⟩
  · rw [← h3]; exact h5
  · rw [← h4]; exact h6
  · rw [← h1]; exact h7
  · rw [← h2]; exact h8

/- ----------------------------------------------------------------
View transform (`Render.update_camera`).
---------------------------------------------------------------- -/

/-- The arguments handed to `gluLookAt`: eye position, look-at target
and up vector. -/
structure LookAtCall where
  eye : ℝ × ℝ × ℝ
  target : ℝ × ℝ × ℝ
  up : ℝ × ℝ × ℝ

/-- `math.radians`: degrees to radians. -/
noncomputable def radiansOf (deg : ℚ) : ℝ := (deg : ℝ) * Real.pi / 180

/-- `Render.update_camera`: spherical-coordinate eye position and the
`gluLookAt(x, y, z, 0, 0, 0, 0, 0, 1)` call. -/
noncomputable def updateCamera (c : CameraState) : LookAtCall :=
  let headingRad := radiansOf c.heading
  let pitchRad := radiansOf c.pitch
  let x := (c.distance : ℝ) * Real.sin headingRad * Real.cos pitchRad
  let y := -((c.distance : ℝ) * Real.cos headingRad * Real.cos pitchRad)
  let z := (c.distance : ℝ) * Real.sin pitchRad
  { eye := (x, y, z), target := (0, 0, 0), up := (0, 0, 1) }

/-- The camera position formula in the words of the specification (§4.2):
`x = distance·sin(heading)·cos(pitch)`, `y = -distance·cos(heading)·cos(pitch)`,
`z = distance·sin(pitch)`, angles in radians. -/
noncomputable def specCameraEye (c : CameraState) : ℝ × ℝ × ℝ :=
  ((c.distance : ℝ) * Real.sin (radiansOf c.heading) * Real.cos (radiansOf c.pitch),
   -((c.distance : ℝ) * Real.cos (radiansOf c.heading) * Real.cos (radiansOf c.pitch)),
   (c.distance : ℝ) * Real.sin (radiansOf c.pitch))

/-- C8: for every camera state, the derived camera position equals the
spec's spherical-coordinate formula (with degree-to-radian conversion)
and the view transform looks at the origin with up vector `+Z`. -/
theorem updateCamera_eq_spec (c : CameraState) :
    updateCamera c =
      { eye := specCameraEye c, target := (0, 0, 0), up := (0, 0, 1) } := rfl

/- ----------------------------------------------------------------
Volumetric analyzer (`Render.compute_volumetric_properties`).
---------------------------------------------------------------- -/

/-- Signed volume of the tetrahedron spanned by a triangle and the origin:
`np.dot(v0, np.cross(v1, v2)) / 6.0`. -/
def tetraVolume (v0 v1 v2 : Vec3) : ℚ := dot v0 (cross v1 v2) / 6

/-- Centroid of that tetrahedron: `(v0 + v1 + v2) / 4.0`. -/
def tetraCentroid (v0 v1 v2 : Vec3) : Vec3 := smul (1 / 4) (vadd (vadd v0 v1) v2)

/-- The accumulation loop of `compute_volumetric_properties`: running
`(total_volume, centroid_sum)` over the triangle list. -/
def volumetricFold (tris : List (Vec3 × Vec3 × Vec3)) : ℚ × Vec3 :=
  tris.foldl
    (fun acc tri =>
      (acc.1 + tetraVolume tri.1 tri.2.1 tri.2.2,
       vadd acc.2 (smul (tetraVolume tri.1 tri.2.1 tri.2.2)
         (tetraCentroid tri.1 tri.2.1 tri.2.2))))
    (0, vzero)

/-- `Render.compute_volumetric_properties` on the triangle list of the STL
file: raises `ValueError` when `np.isclose(total_volume, 0)` (default
tolerances give `|total| ≤ 1e-8`), otherwise returns
`(centroid_sum / total_volume, total_volume)`. -/
def computeVolumetricProperties (tris : List (Vec3 × Vec3 × Vec3)) :
    Except String (Vec3 × ℚ) :=
  if |(volumetricFold tris).1| ≤ 1 / 100000000 then
    Except.error ("Calculated volume is zero; ensure the STL mesh is closed and valid.")
  else
    Except.ok (smul (1 / (volumetricFold tris).1) (volumetricFold tris).2,
      (volumetricFold tris).1)

/-- Total volume in the words of the spec (§4.1): the sum over triangles
of `dot(v0, cross(v1, v2)) / 6`. -/
def specTotalVolume (tris : List (Vec3 × Vec3 × Vec3)) : ℚ :=
  (tris.map (fun tri => dot tri.1 (cross tri.2.1 tri.2.2) / 6)).sum

/-- Sum of a list of vectors. -/
def vsum (l : List Vec3) : Vec3 := l.foldr vadd vzero

/-- Centroid numerator in the words of the spec (§4.1): the sum of
`tetra_centroid * tetra_volume` with `tetra_centroid = (v0+v1+v2)/4`. -/
def specCentroidSum (tris : List (Vec3 × Vec3 × Vec3)) : Vec3 :=
  vsum (tris.map (fun tri =>
    smul (dot tri.1 (cross tri.2.1 tri.2.2) / 6)
      (smul (1 / 4) (vadd (vadd tri.1 tri.2.1) tri.2.2))))

lemma vadd_comm (a b : Vec3) : vadd a b = vadd b a := by
  unfold vadd; simp [add_comm]

lemma vadd_assoc (a b c : Vec3) : vadd (vadd a b) c = vadd a (vadd b c) := by
  unfold vadd; simp [add_assoc]

lemma vadd_vzero (a : Vec3) : vadd a vzero = a := by
  unfold vadd vzero; simp

lemma vzero_vadd (a : Vec3) : vadd vzero a = a := by
  unfold vadd vzero; simp

lemma volumetricFold_loop (tris : List (Vec3 × Vec3 × Vec3)) :
    ∀ (a : ℚ) (v : Vec3),
      tris.foldl
        (fun acc tri =>
          (acc.1 + tetraVolume tri.1 tri.2.1 tri.2.2,
           vadd acc.2 (smul (tetraVolume tri.1 tri.2.1 tri.2.2)
             (tetraCentroid tri.1 tri.2.1 tri.2.2))))
        (a, v) =
      (a + specTotalVolume tris, vadd v (specCentroidSum tris)) := by
  induction tris with
  | nil =>
    intro a v
    simp [specTotalVolume, specCentroidSum, vsum, vadd_vzero]
  | cons tri rest ih =>
    intro a v
    rw [List.foldl_cons, ih]
    simp only [Prod.mk.injEq]
    constructor
    · simp only [specTotalVolume, List.map_cons, List.sum_cons, tetraVolume]
      ring
    · simp only [specCentroidSum, vsum, List.map_cons, List.foldr_cons,
        tetraVolume, tetraCentroid, vadd_assoc]

/-- The unit cube centered at the origin, as a closed, consistently
outward-wound triangle list (two triangles per face). -/
def cubeTris : List (Vec3 × Vec3 × Vec3) :=
  [(⟨1/2, -1/2, -1/2⟩, ⟨1/2, 1/2, -1/2⟩, ⟨1/2, 1/2, 1/2⟩),
   (⟨1/2, -1/2, -1/2⟩, ⟨1/2, 1/2, 1/2⟩, ⟨1/2, -1/2, 1/2⟩),
   (⟨-1/2, -1/2, -1/2⟩, ⟨-1/2, 1/2, 1/2⟩, ⟨-1/2, 1/2, -1/2⟩),
   (⟨-1/2, -1/2, -1/2⟩, ⟨-1/2, -1/2, 1/2⟩, ⟨-1/2, 1/2, 1/2⟩),
   (⟨-1/2, 1/2, -1/2⟩, ⟨-1/2, 1/2, 1/2⟩, ⟨1/2, 1/2, 1/2⟩),
   (⟨-1/2, 1/2, -1/2⟩, ⟨1/2, 1/2, 1/2⟩, ⟨1/2, 1/2, -1/2⟩),
   (⟨-1/2, -1/2, -1/2⟩, ⟨1/2, -1/2, 1/2⟩, ⟨-1/2, -1/2, 1/2⟩),
   (⟨-1/2, -1/2, -1/2⟩, ⟨1/2, -1/2, -1/2⟩, ⟨1/2, -1/2, 1/2⟩),
   (⟨-1/2, -1/2, 1/2⟩, ⟨1/2, -1/2, 1/2⟩, ⟨1/2, 1/2, 1/2⟩),
   (⟨-1/2, -1/2, 1/2⟩, ⟨1/2, 1/2, 1/2⟩, ⟨-1/2, 1/2, 1/2⟩),
   (⟨-1/2, -1/2, -1/2⟩, ⟨1/2, 1/2, -1/2⟩, ⟨1/2, -1/2, -1/2⟩),
   (⟨-1/2, -1/2, -1/2⟩, ⟨-1/2, 1/2, -1/2⟩, ⟨1/2, 1/2, -1/2⟩)]

attribute [local semireducible] Rat.add Rat.mul Rat.sub Rat.inv Rat.ofScientific in
lemma cube_eval : computeVolumetricProperties cubeTris = Except.ok (vzero, 1) := by
  decide

/-- C3: the analyzer's accumulated total volume and centroid numerator
equal the spec's per-tetrahedron sums, the returned centroid is that sum
divided by the total volume (with the zero-volume guard), and on the unit
cube centered at the origin it yields volume `1` and centroid `(0,0,0)`. -/
theorem volumetric_matches_spec :
    (∀ tris : List (Vec3 × Vec3 × Vec3),
      (volumetricFold tris).1 = specTotalVolume tris ∧
      (volumetricFold tris).2 = specCentroidSum tris ∧
      computeVolumetricProperties tris =
        (if |specTotalVolume tris| ≤ 1 / 100000000 then
          Except.error ("Calculated volume is zero; ensure the STL mesh is closed and valid.")
        else
          Except.ok (smul (1 / specTotalVolume tris) (specCentroidSum tris),
            specTotalVolume tris))) ∧
    computeVolumetricProperties cubeTris = Except.ok (vzero, 1) := by
  constructor
  · intro tris
    have h := volumetricFold_loop tris 0 vzero
    have h1 : (volumetricFold tris).1 = specTotalVolume tris := by
      unfold volumetricFold
      rw [h]
      simp
    have h2 : (volumetricFold tris).2 = specCentroidSum tris := by
      unfold volumetricFold
      rw [h]
      simp [vzero_vadd]
    refine ⟨h1, h2, ?_⟩
    simp only [computeVolumetricProperties, h1, h2]
  · exact cube_eval

/- ----------------------------------------------------------------
Intersector (`Render.check_triangle_intersection`, `Render.handle_click`).
---------------------------------------------------------------- -/

/-- `Render.check_triangle_intersection`: the Möller–Trumbore test,
returning the ray parameter `t` of the hit, or `none`. -/
def checkTriangleIntersection (rayOrigin rayDir : Vec3) :
    Vec3 × Vec3 × Vec3 → Option ℚ
  | (v0, v1, v2) =>
    let edge1 := vsub v1 v0
    let edge2 := vsub v2 v0
    let h := cross rayDir edge2
    let a := dot edge1 h
    if |a| < 1 / 1000000 then none
    else
      let f := 1 / a
      let s := vsub rayOrigin v0
      let u := f * dot s h
      if u < 0 ∨ u > 1 then none
      else
        let q := cross s edge1
        let v := f * dot rayDir q
        if v < 0 ∨ u + v > 1 then none
        else
          let t := f * dot edge2 q
          if t > 1 / 1000000 then some t else none

/-- One iteration of the nearest-hit scan of `Render.handle_click`:
`if t is not None and t < closest_t`, replace the running best hit. -/
def pickStep (rayOrigin rayDir : Vec3) (m : Mesh) (best : Option (ℕ × ℚ))
    (i : ℕ) : Option (ℕ × ℚ) :=
  match checkTriangleIntersection rayOrigin rayDir (triOf m i), best with
  | none, b => b
  | some t, none => some (i, t)
  | some t, some (bi, bt) => if t < bt then some (i, t) else some (bi, bt)

/-- The nearest-hit scan of `Render.handle_click`: running
`(closest_triangle, closest_t)` over the triangle indices, replacing the
best hit only on a strictly smaller `t`. -/
def pickLoop (rayOrigin rayDir : Vec3) (m : Mesh) (l : List ℕ)
    (best : Option (ℕ × ℚ)) : Option (ℕ × ℚ) :=
  l.foldl (pickStep rayOrigin rayDir m) best

/-- The pick result of `Render.handle_click`: index of the closest
intersected triangle, or `none`. -/
def handleClickPick (m : Mesh) (rayOrigin rayDir : Vec3) : Option ℕ :=
  (pickLoop rayOrigin rayDir m (List.range (numTris m)) none).map Prod.fst

/-- The Möller–Trumbore acceptance conditions in the words of the spec
(§4.4): `|a| ≥ 1e-6`, `0 ≤ u ≤ 1`, `v ≥ 0`, `u + v ≤ 1`, `t > 1e-6`. -/
def mtValid (rayOrigin rayDir v0 v1 v2 : Vec3) (t : ℚ) : Prop :=
  let edge1 := vsub v1 v0
  let edge2 := vsub v2 v0
  let h := cross rayDir edge2
  let a := dot edge1 h
  let f := 1 / a
  let s := vsub rayOrigin v0
  let u := f * dot s h
  let q := cross s edge1
  let v := f * dot rayDir q
  |a| ≥ 1 / 1000000 ∧ 0 ≤ u ∧ u ≤ 1 ∧ 0 ≤ v ∧ u + v ≤ 1 ∧
    f * dot edge2 q > 1 / 1000000 ∧ t = f * dot edge2 q

lemma checkTriangleIntersection_iff_mtValid (rayOrigin rayDir v0 v1 v2 : Vec3)
    (t : ℚ) :
    checkTriangleIntersection rayOrigin rayDir (v0, v1, v2) = some t ↔
      mtValid rayOrigin rayDir v0 v1 v2 t := by
  simp only [checkTriangleIntersection, mtValid]
  split_ifs with h1 h2 h3 h4
  · simp only [reduceCtorEq, false_iff]
    intro hv
    exact absurd hv.1 (not_le.mpr h1)
  · simp only [reduceCtorEq, false_iff]
    intro hv
    rcases h2 with h2 | h2
    · exact absurd hv.2.1 (not_le.mpr h2)
    · exact absurd hv.2.2.1 (not_le.mpr h2)
  · simp only [reduceCtorEq, false_iff]
    intro hv
    rcases h3 with h3 | h3
    · exact absurd hv.2.2.2.1 (not_le.mpr h3)
    · exact absurd hv.2.2.2.2.1 (not_le.mpr h3)
  · simp only [Option.some.injEq]
    push_neg at h1 h2 h3
    constructor
    · intro ht
      exact ⟨h1, h2.1, h2.2, h3.1, h3.2, h4, ht.symm⟩
    · intro hv
      exact hv.2.2.2.2.2.2.symm
  · simp only [reduceCtorEq, false_iff]
    push_neg at h4
    intro hv
    exact absurd hv.2.2.2.2.2.1 (not_lt.mpr h4)

lemma pickStep_chk_none (ro rd : Vec3) (m : Mesh) (best : Option (ℕ × ℚ))
    (i : ℕ) (h : checkTriangleIntersection ro rd (triOf m i) = none) :
    pickStep ro rd m best i = best := by
  unfold pickStep
  rw [h]

lemma pickStep_chk_some_none (ro rd : Vec3) (m : Mesh) (i : ℕ) (t : ℚ)
    (h : checkTriangleIntersection ro rd (triOf m i) = some t) :
    pickStep ro rd m none i = some (i, t) := by
  unfold pickStep
  rw [h]

lemma pickStep_chk_some_some (ro rd : Vec3) (m : Mesh) (i bi : ℕ) (t bt : ℚ)
    (h : checkTriangleIntersection ro rd (triOf m i) = some t) :
    pickStep ro rd m (some (bi, bt)) i =
      if t < bt then some (i, t) else some (bi, bt) := by
  unfold pickStep
  rw [h]

lemma pickLoop_eq_none_iff (ro rd : Vec3) (m : Mesh) :
    ∀ (l : List ℕ) (best : Option (ℕ × ℚ)),
      pickLoop ro rd m l best = none ↔
        best = none ∧
          ∀ i ∈ l, checkTriangleIntersection ro rd (triOf m i) = none := by
  intro l
  induction l with
  | nil =>
    intro best
    simp [pickLoop]
  | cons i rest ih =>
    intro best
    rw [show pickLoop ro rd m (i :: rest) best =
        pickLoop ro rd m rest (pickStep ro rd m best i) from List.foldl_cons _ _]
    rw [ih]
    cases hchk : checkTriangleIntersection ro rd (triOf m i) with
    | none =>
      rw [pickStep_chk_none ro rd m best i hchk]
      constructor
      · rintro ⟨hb, hall⟩
        refine ⟨hb, ?_⟩
        intro j hj
        rcases List.mem_cons.mp hj with h | h
        · rw [h]; exact hchk
        · exact hall j h
      · rintro ⟨hb, hall⟩
        exact ⟨hb, fun j hj => hall j (List.mem_cons_of_mem _ hj)⟩
    | some t =>
      have hne : ∀ b : Option (ℕ × ℚ), pickStep ro rd m b i ≠ none := by
        intro b
        cases b with
        | none => rw [pickStep_chk_some_none ro rd m i t hchk]; simp
        | some p =>
          obtain ⟨bi, bt⟩ := p
          rw [pickStep_chk_some_some ro rd m i bi t bt hchk]
          split_ifs <;> simp
      constructor
      · rintro ⟨hb, -⟩
        exact absurd hb (hne best)
      · rintro ⟨-, hall⟩
        exact absurd (hall i (List.mem_cons_self i rest)) (by simp [hchk])

lemma pickLoop_some_spec (ro rd : Vec3) (m : Mesh) :
    ∀ (l : List ℕ) (bi : ℕ) (bt : ℚ) (ri : ℕ) (rt : ℚ),
      pickLoop ro rd m l (some (bi, bt)) = some (ri, rt) →
      rt ≤ bt ∧
      (∀ j ∈ l, ∀ u, checkTriangleIntersection ro rd (triOf m j) = some u → rt ≤ u) ∧
      ((ri = bi ∧ rt = bt) ∨
        (∃ l₁ l₂, l = l₁ ++ ri :: l₂ ∧
          checkTriangleIntersection ro rd (triOf m ri) = some rt ∧ rt < bt ∧
          ∀ j ∈ l₁, ∀ u,
            checkTriangleIntersection ro rd (triOf m j) = some u → rt < u)) := by
  intro l
  induction l with
  | nil =>
    intro bi bt ri rt hrun
    simp only [pickLoop, List.foldl_nil, Option.some.injEq, Prod.mk.injEq] at hrun
    refine ⟨le_of_eq hrun.2.symm, by simp, Or.inl ⟨hrun.1.symm, hrun.2.symm⟩⟩
  | cons i rest ih =>
    intro bi bt ri rt hrun
    rw [show pickLoop ro rd m (i :: rest) (some (bi, bt)) =
        pickLoop ro rd m rest (pickStep ro rd m (some (bi, bt)) i) from
      List.foldl_cons _ _] at hrun
    cases hchk : checkTriangleIntersection ro rd (triOf m i) with
    | none =>
      rw [pickStep_chk_none ro rd m _ i hchk] at hrun
      obtain ⟨hle, hall, hdisj⟩ := ih bi bt ri rt hrun
      refine ⟨hle, ?_, ?_⟩
      · intro j hj u hu
        rcases List.mem_cons.mp hj with h | h
        · rw [h, hchk] at hu; cases hu
        · exact hall j h u hu
      · rcases hdisj with h | ⟨l₁, l₂, heq, hcri, hlt, hstrict⟩
        · exact Or.inl h
        · refine Or.inr ⟨i :: l₁, l₂, by rw [heq]; rfl, hcri, hlt, ?_⟩
          intro j hj u hu
          rcases List.mem_cons.mp hj with h | h
          · rw [h, hchk] at hu; cases hu
          · exact hstrict j h u hu
    | some t =>
      rw [pickStep_chk_some_some ro rd m i bi t bt hchk] at hrun
      by_cases hlt : t < bt
      · rw [if_pos hlt] at hrun
        obtain ⟨hle, hall, hdisj⟩ := ih i t ri rt hrun
        refine ⟨le_of_lt (lt_of_le_of_lt hle hlt), ?_, ?_⟩
        · intro j hj u hu
          rcases List.mem_cons.mp hj with h | h
          · rw [h, hchk] at hu
            cases hu
            exact hle
          · exact hall j h u hu
        · rcases hdisj with ⟨hri, hrt⟩ | ⟨l₁, l₂, heq, hcri, hltt, hstrict⟩
          · refine Or.inr ⟨[], rest, by rw [hri]; rfl, ?_, ?_, by simp⟩
            · rw [hri, hrt]; exact hchk
            · rw [hrt]; exact hlt
          · refine Or.inr ⟨i :: l₁, l₂, by rw [heq]; rfl, hcri,
              lt_trans hltt hlt, ?_⟩
            intro j hj u hu
            rcases List.mem_cons.mp hj with h | h
            · rw [h, hchk] at hu
              cases hu
              exact hltt
            · exact hstrict j h u hu
      · rw [if_neg hlt] at hrun
        obtain ⟨hle, hall, hdisj⟩ := ih bi bt ri rt hrun
        refine ⟨hle, ?_, ?_⟩
        · intro j hj u hu
          rcases List.mem_cons.mp hj with h | h
          · rw [h, hchk] at hu
            cases hu
            exact le_trans hle (not_lt.mp hlt)
          · exact hall j h u hu
        · rcases hdisj with h | ⟨l₁, l₂, heq, hcri, hltb, hstrict⟩
          · exact Or.inl h
          · refine Or.inr ⟨i :: l₁, l₂, by rw [heq]; rfl, hcri, hltb, ?_⟩
            intro j hj u hu
            rcases List.mem_cons.mp hj with h | h
            · rw [h, hchk] at hu
              cases hu
              exact lt_of_lt_of_le hltb (not_lt.mp hlt)
            · exact hstrict j h u hu

lemma pickLoop_none_start_spec (ro rd : Vec3) (m : Mesh) :
    ∀ (l : List ℕ) (ri : ℕ) (rt : ℚ),
      pickLoop ro rd m l none = some (ri, rt) →
      ∃ l₁ l₂, l = l₁ ++ ri :: l₂ ∧
        checkTriangleIntersection ro rd (triOf m ri) = some rt ∧
        (∀ j ∈ l₁, ∀ u,
          checkTriangleIntersection ro rd (triOf m j) = some u → rt < u) ∧
        (∀ j ∈ l, ∀ u,
          checkTriangleIntersection ro rd (triOf m j) = some u → rt ≤ u) := by
  intro l
  induction l with
  | nil =>
    intro ri rt hrun
    cases hrun
  | cons i rest ih =>
    intro ri rt hrun
    rw [show pickLoop ro rd m (i :: rest) none =
        pickLoop ro rd m rest (pickStep ro rd m none i) from
      List.foldl_cons _ _] at hrun
    cases hchk : checkTriangleIntersection ro rd (triOf m i) with
    | none =>
      rw [pickStep_chk_none ro rd m _ i hchk] at hrun
      obtain ⟨l₁, l₂, heq, hcri, hstrict, hall⟩ := ih ri rt hrun
      refine ⟨i :: l₁, l₂, by rw [heq]; rfl, hcri, ?_, ?_⟩
      · intro j hj u hu
        rcases List.mem_cons.mp hj with h | h
        · rw [h, hchk] at hu; cases hu
        · exact hstrict j h u hu
      · intro j hj u hu
        rcases List.mem_cons.mp hj with h | h
        · rw [h, hchk] at hu; cases hu
        · exact hall j h u hu
    | some t =>
      rw [pickStep_chk_some_none ro rd m i t hchk] at hrun
      obtain ⟨hle, hall, hdisj⟩ := pickLoop_some_spec ro rd m rest i t ri rt hrun
      rcases hdisj with ⟨hri, hrt⟩ | ⟨l₁, l₂, heq, hcri, hltt, hstrict⟩
      · refine ⟨[], rest, by rw [hri]; rfl, by rw [hri, hrt]; exact hchk, by simp, ?_⟩
        intro j hj u hu
        rcases List.mem_cons.mp hj with h | h
        · rw [h, hchk] at hu
          cases hu
          exact hle
        · exact hall j h u hu
      · refine ⟨i :: l₁, l₂, by rw [heq]; rfl, hcri, ?_, ?_⟩
        · intro j hj u hu
          rcases List.mem_cons.mp hj with h | h
          · rw [h, hchk] at hu
            cases hu
            exact hltt
          · exact hstrict j h u hu
        · intro j hj u hu
          rcases List.mem_cons.mp hj with h | h
          · rw [h, hchk] at hu
            cases hu
            exact hle
          · exact hall j h u hu

lemma range_split (n : ℕ) (l₁ l₂ : List ℕ) (r : ℕ)
    (h : List.range n = l₁ ++ r :: l₂) :
    r = l₁.length ∧ l₁ = List.range r ∧ r < n := by
  have hlen : n = l₁.length + (l₂.length + 1) := by
    have hc := congrArg List.length h
    simpa using hc
  have hl1n : l₁.length < n := by omega
  have hr : r = l₁.length := by
    have hb1 : l₁.length < (l₁ ++ r :: l₂).length := by simp
    have hb2 : l₁.length < (List.range n).length := by simpa using hl1n
    have h1 : (l₁ ++ r :: l₂)[l₁.length] = r := by
      rw [List.getElem_append_right (le_refl l₁.length)]
      simp
    have h2 : (List.range n)[l₁.length] = l₁.length := by
      simp
    have h4 : (List.range n)[l₁.length] = (l₁ ++ r :: l₂)[l₁.length] :=
      List.getElem_of_eq h _
    rw [h2, h1] at h4
    exact h4.symm
  refine ⟨hr, ?_, by omega⟩
  have h3 : (List.range n).take l₁.length = l₁ := by
    rw [h]
    exact List.take_left l₁ (r :: l₂)
  rw [List.take_range] at h3
  have hmin : l₁.length ⊓ n = l₁.length := min_eq_left (le_of_lt hl1n)
  rw [hmin] at h3
  rw [hr, h3]

/-- C1: the pick operation returns the index of the triangle with the
smallest Möller–Trumbore parameter `t` among all triangles passing the
test (`|a| ≥ 1e-6`, `0 ≤ u ≤ 1`, `v ≥ 0`, `u + v ≤ 1`, `t > 1e-6`);
on equal minimal `t` the first triangle in storage order wins; and it
returns `none` exactly when no triangle passes the test. -/
theorem pick_nearest_hit (m : Mesh) (rayOrigin rayDir : Vec3) :
    (handleClickPick m rayOrigin rayDir = none ↔
      ∀ i < numTris m,
        checkTriangleIntersection rayOrigin rayDir (triOf m i) = none) ∧
    (∀ idx, handleClickPick m rayOrigin rayDir = some idx →
      idx < numTris m ∧
      ∃ t, checkTriangleIntersection rayOrigin rayDir (triOf m idx) = some t ∧
        (∀ j < numTris m, ∀ u,
          checkTriangleIntersection rayOrigin rayDir (triOf m j) = some u →
            t ≤ u) ∧
        (∀ j < idx, ∀ u,
          checkTriangleIntersection rayOrigin rayDir (triOf m j) = some u →
            t < u)) ∧
    (∀ v0 v1 v2 t,
      checkTriangleIntersection rayOrigin rayDir (v0, v1, v2) = some t ↔
        mtValid rayOrigin rayDir v0 v1 v2 t) := by
  refine ⟨?_, ?_, fun v0 v1 v2 t =>
    checkTriangleIntersection_iff_mtValid rayOrigin rayDir v0 v1 v2 t⟩
  · unfold handleClickPick
    rw [Option.map_eq_none']
    rw [pickLoop_eq_none_iff]
    simp only [true_and]
    constructor
    · intro hall i hi
      exact hall i (List.mem_range.mpr hi)
    · intro hall i hi
      exact hall i (List.mem_range.mp hi)
  · intro idx hpick
    unfold handleClickPick at hpick
    rw [Option.map_eq_some'] at hpick
    obtain ⟨p, hp, hfst⟩ := hpick
    obtain ⟨ri, rt⟩ := p
    obtain ⟨l₁, l₂, heq, hcri, hstrict, hall⟩ :=
      pickLoop_none_start_spec rayOrigin rayDir m (List.range (numTris m)) ri rt hp
    obtain ⟨hrlen, hl₁, hrn⟩ := range_split (numTris m) l₁ l₂ ri heq
    cases hfst
    refine ⟨hrn, rt, hcri, ?_, ?_⟩
    · intro j hj u hu
      exact hall j (List.mem_range.mpr hj) u hu
    · intro j hj u hu
      refine hstrict j ?_ u hu
      rw [hl₁]
      exact List.mem_range.mpr hj

/-- A one-triangle test mesh: triangle `(0,0,0), (1,0,0), (0,1,0)` with
normal `(0,0,1)`. -/
def testMesh : Mesh :=
  ⟨[⟨0, 0, 0⟩, ⟨1, 0, 0⟩, ⟨0, 1, 0⟩], [⟨0, 0, 1⟩]⟩

attribute [local semireducible] Rat.add Rat.mul Rat.sub Rat.inv Rat.ofScientific in
theorem pick_nearest_hit_witness :
    0 < numTris testMesh ∧
    ∃ t, checkTriangleIntersection ⟨1/4, 1/4, 1⟩ ⟨0, 0, -1⟩ (triOf testMesh 0) =
        some t ∧
      (∀ j < numTris testMesh, ∀ u,
        checkTriangleIntersection ⟨1/4, 1/4, 1⟩ ⟨0, 0, -1⟩ (triOf testMesh j) =
          some u → t ≤ u) ∧
      (∀ j < 0, ∀ u,
        checkTriangleIntersection ⟨1/4, 1/4, 1⟩ ⟨0, 0, -1⟩ (triOf testMesh j) =
          some u → t < u) :=
  (pick_nearest_hit testMesh ⟨1/4, 1/4, 1⟩ ⟨0, 0, -1⟩).2.1 0 (by decide)

/- ----------------------------------------------------------------
Region grouper (`Render.find_connected_triangles`).
---------------------------------------------------------------- -/

/-- Two triangles share at least one vertex position: the nine
`np.array_equal` comparisons of `find_connected_triangles`. -/
def sharesVertex (m : Mesh) (a b : ℕ) : Prop :=
  vertexOf m (3 * a) = vertexOf m (3 * b) ∨
  vertexOf m (3 * a) = vertexOf m (3 * b + 1) ∨
  vertexOf m (3 * a) = vertexOf m (3 * b + 2) ∨
  vertexOf m (3 * a + 1) = vertexOf m (3 * b) ∨
  vertexOf m (3 * a + 1) = vertexOf m (3 * b + 1) ∨
  vertexOf m (3 * a + 1) = vertexOf m (3 * b + 2) ∨
  vertexOf m (3 * a + 2) = vertexOf m (3 * b) ∨
  vertexOf m (3 * a + 2) = vertexOf m (3 * b + 1) ∨
  vertexOf m (3 * a + 2) = vertexOf m (3 * b + 2)

instance sharesVertexDec (m : Mesh) (a b : ℕ) : Decidable (sharesVertex m a b) := by
  unfold sharesVertex
  infer_instance

/-- The normal test of `find_connected_triangles`: every comparison is
taken against the seed triangle's normal (`start_normal`), never between
two adjacent members: `np.dot(start_normal, n) > 0.9999`. -/
def normalMatch (m : Mesh) (seed t : ℕ) : Prop :=
  dot (normalOf m seed) (normalOf m t) > 9999 / 10000

instance normalMatchDec (m : Mesh) (seed t : ℕ) : Decidable (normalMatch m seed t) := by
  unfold normalMatch
  infer_instance

/-- The element popped from the worklist: Python's `set.pop` removes an
arbitrary element, modelled by a selector `f` reduced to a valid
position. -/
def groupPop (f : List ℕ → ℕ) (l : List ℕ) : ℕ := l.getD (f l % l.length) 0

/-- The worklist with the popped element removed. -/
def groupRest (f : List ℕ → ℕ) (l : List ℕ) : List ℕ :=
  l.eraseIdx (f l % l.length)

/-- The inner scan of `find_connected_triangles`: all triangle indices
not yet in `connected` that pass the seed-normal test and share a vertex
with the current triangle `c`. -/
def groupNew (m : Mesh) (seed c : ℕ) (conn : Finset ℕ) : List ℕ :=
  (List.range (numTris m)).filter (fun o =>
    decide (o ∉ conn ∧ normalMatch m seed o ∧ sharesVertex m c o))

/-- The worklist loop of `find_connected_triangles`: pop `current`; skip
it if already connected; otherwise add it to `connected` and, when it
passes the seed-normal test, push its admissible neighbours.  The fuel
argument strictly dominates the loop's measure, so it never runs out on
the entry point below. -/
def findConnectedLoop (f : List ℕ → ℕ) (m : Mesh) (seed : ℕ) :
    ℕ → Finset ℕ → List ℕ → Finset ℕ
  | 0, conn, _ => conn
  | _ + 1, conn, [] => conn
  | fuel + 1, conn, x :: xs =>
    if groupPop f (x :: xs) ∈ conn then
      findConnectedLoop f m seed fuel conn (groupRest f (x :: xs))
    else
      if normalMatch m seed (groupPop f (x :: xs)) then
        findConnectedLoop f m seed fuel (insert (groupPop f (x :: xs)) conn)
          (groupRest f (x :: xs) ++
            groupNew m seed (groupPop f (x :: xs))
              (insert (groupPop f (x :: xs)) conn))
      else
        findConnectedLoop f m seed fuel (insert (groupPop f (x :: xs)) conn)
          (groupRest f (x :: xs))

/-- `Render.find_connected_triangles`, parameterized by the pop selector. -/
def findConnectedTrianglesWith (f : List ℕ → ℕ) (m : Mesh) (seed : ℕ) :
    Finset ℕ :=
  findConnectedLoop f m seed ((numTris m + 1) * (numTris m + 1) + 2) ∅ [seed]

/-- `Render.find_connected_triangles` with the first-position selector. -/
def findConnectedTriangles (m : Mesh) (seed : ℕ) : Finset ℕ :=
  findConnectedTrianglesWith (fun _ => 0) m seed

/-- The traversal relation of `find_connected_triangles`: the scan from a
frontier triangle `a` reaches `b` when both pass the seed-normal test,
they share a vertex, and `b` is a scanned triangle index. -/
def groupEdge (m : Mesh) (seed : ℕ) (a b : ℕ) : Prop :=
  normalMatch m seed a ∧ normalMatch m seed b ∧ sharesVertex m a b ∧
    b < numTris m

/-- The universe every worklist and connected-set element lives in. -/
def groupUniverse (m : Mesh) (seed : ℕ) : Finset ℕ :=
  insert seed (Finset.range (numTris m))

/-- Termination measure of the worklist loop. -/
def groupMeasure (m : Mesh) (seed : ℕ) (conn : Finset ℕ)
    (toCheck : List ℕ) : ℕ :=
  ((groupUniverse m seed).card - conn.card) * (numTris m + 1) + toCheck.length

/-- Loop invariants of `find_connected_triangles`. -/
structure GroupInv (m : Mesh) (seed : ℕ) (conn : Finset ℕ)
    (toCheck : List ℕ) : Prop where
  connReach : ∀ t ∈ conn, Relation.ReflTransGen (groupEdge m seed) seed t
  checkReach : ∀ t ∈ toCheck, Relation.ReflTransGen (groupEdge m seed) seed t
  closed : ∀ a ∈ conn, ∀ b, groupEdge m seed a b → b ∈ conn ∨ b ∈ toCheck
  connSub : conn ⊆ groupUniverse m seed
  checkSub : ∀ t ∈ toCheck, t ∈ groupUniverse m seed
  seedIn : seed ∈ conn ∨ seed ∈ toCheck

lemma mem_getD_or_eraseIdx (l : List ℕ) (p : ℕ) (hp : p < l.length) (b : ℕ)
    (hb : b ∈ l) : b = l.getD p 0 ∨ b ∈ l.eraseIdx p := by
  have hsplit : l = l.take p ++ l.drop p := (List.take_append_drop p l).symm
  have hdrop : l.drop p = l[p] :: l.drop (p + 1) := List.drop_eq_getElem_cons hp
  have herase : l.eraseIdx p = l.take p ++ l.drop (p + 1) :=
    List.eraseIdx_eq_take_drop_succ l p
  rw [List.getD_eq_getElem l 0 hp]
  rw [hsplit, List.mem_append, hdrop] at hb
  rcases hb with h | h
  · right
    rw [herase, List.mem_append]
    left
    exact h
  · rcases List.mem_cons.mp h with h | h
    · left
      exact h
    · right
      rw [herase, List.mem_append]
      right
      exact h

lemma groupPop_mem (f : List ℕ → ℕ) (x : ℕ) (xs : List ℕ) :
    groupPop f (x :: xs) ∈ x :: xs := by
  unfold groupPop
  have hp : f (x :: xs) % (x :: xs).length < (x :: xs).length :=
    Nat.mod_lt _ (by simp)
  rw [List.getD_eq_getElem _ 0 hp]
  exact List.getElem_mem hp

lemma groupRest_length (f : List ℕ → ℕ) (x : ℕ) (xs : List ℕ) :
    (groupRest f (x :: xs)).length = xs.length := by
  unfold groupRest
  rw [List.length_eraseIdx]
  have hp : f (x :: xs) % (x :: xs).length < (x :: xs).length :=
    Nat.mod_lt _ (by simp)
  rw [if_pos hp]
  simp

lemma groupRest_subset (f : List ℕ → ℕ) (x : ℕ) (xs : List ℕ) (b : ℕ)
    (hb : b ∈ groupRest f (x :: xs)) : b ∈ x :: xs :=
  List.mem_of_mem_eraseIdx hb

lemma mem_pop_or_rest (f : List ℕ → ℕ) (x : ℕ) (xs : List ℕ) (b : ℕ)
    (hb : b ∈ x :: xs) : b = groupPop f (x :: xs) ∨ b ∈ groupRest f (x :: xs) := by
  have hp : f (x :: xs) % (x :: xs).length < (x :: xs).length :=
    Nat.mod_lt _ (by simp)
  exact mem_getD_or_eraseIdx (x :: xs) _ hp b hb

lemma mem_groupNew (m : Mesh) (seed c : ℕ) (conn : Finset ℕ) (o : ℕ) :
    o ∈ groupNew m seed c conn ↔
      o < numTris m ∧ o ∉ conn ∧ normalMatch m seed o ∧ sharesVertex m c o := by
  unfold groupNew
  rw [List.mem_filter]
  simp only [List.mem_range, decide_eq_true_eq]

lemma groupNew_length (m : Mesh) (seed c : ℕ) (conn : Finset ℕ) :
    (groupNew m seed c conn).length ≤ numTris m := by
  unfold groupNew
  calc ((List.range (numTris m)).filter _).length
      ≤ (List.range (numTris m)).length := List.length_filter_le _ _
    _ = numTris m := List.length_range _

lemma findConnectedLoop_spec (f : List ℕ → ℕ) (m : Mesh) (seed : ℕ) :
    ∀ (fuel : ℕ) (conn : Finset ℕ) (toCheck : List ℕ),
      groupMeasure m seed conn toCheck < fuel →
      GroupInv m seed conn toCheck →
      ∀ t, t ∈ findConnectedLoop f m seed fuel conn toCheck ↔
        Relation.ReflTransGen (groupEdge m seed) seed t := by
  intro fuel
  induction fuel with
  | zero =>
    intro conn toCheck hm
    exact absurd hm (Nat.not_lt_zero _)
  | succ fuel ih =>
    intro conn toCheck hm hinv t
    cases toCheck with
    | nil =>
      rw [show findConnectedLoop f m seed (fuel + 1) conn [] = conn from rfl]
      constructor
      · exact fun ht => hinv.connReach t ht
      · intro hreach
        have hseed : seed ∈ conn := by
          rcases hinv.seedIn with h | h
          · exact h
          · simp at h
        induction hreach with
        | refl => exact hseed
        | tail hab hbc ihr =>
          rcases hinv.closed _ ihr _ hbc with h | h
          · exact h
          · simp at h
    | cons x xs =>
      rw [findConnectedLoop]
      by_cases hmem : groupPop f (x :: xs) ∈ conn
      · rw [if_pos hmem]
        apply ih
        · have h1 : (groupRest f (x :: xs)).length = xs.length :=
            groupRest_length f x xs
          unfold groupMeasure at hm ⊢
          rw [h1]
          simp only [List.length_cons] at hm
          omega
        · refine ⟨hinv.connReach, ?_, ?_, hinv.connSub, ?_, ?_⟩
          · exact fun b hb => hinv.checkReach b (groupRest_subset f x xs b hb)
          · intro a ha b hb
            rcases hinv.closed a ha b hb with h | h
            · exact Or.inl h
            · rcases mem_pop_or_rest f x xs b h with h2 | h2
              · exact Or.inl (by rw [h2]; exact hmem)
              · exact Or.inr h2
          · exact fun b hb => hinv.checkSub b (groupRest_subset f x xs b hb)
          · rcases hinv.seedIn with h | h
            · exact Or.inl h
            · rcases mem_pop_or_rest f x xs seed h with h2 | h2
              · exact Or.inl (by rw [h2]; exact hmem)
              · exact Or.inr h2
      · rw [if_neg hmem]
        have hcmem := groupPop_mem f x xs
        have hcU : groupPop f (x :: xs) ∈ groupUniverse m seed :=
          hinv.checkSub _ hcmem
        have hsub : insert (groupPop f (x :: xs)) conn ⊆ groupUniverse m seed :=
          Finset.insert_subset_iff.mpr ⟨hcU, hinv.connSub⟩
        have hcard : (insert (groupPop f (x :: xs)) conn).card = conn.card + 1 :=
          Finset.card_insert_of_not_mem hmem
        have hle : conn.card + 1 ≤ (groupUniverse m seed).card := by
          rw [← hcard]
          exact Finset.card_le_card hsub
        have hreach_c :
            Relation.ReflTransGen (groupEdge m seed) seed (groupPop f (x :: xs)) :=
          hinv.checkReach _ hcmem
        have hstep :
            ((groupUniverse m seed).card - (conn.card + 1)) * (numTris m + 1) +
              (numTris m + 1) =
            ((groupUniverse m seed).card - conn.card) * (numTris m + 1) := by
          have h2 : (groupUniverse m seed).card - (conn.card + 1) + 1 =
              (groupUniverse m seed).card - conn.card := by omega
          calc ((groupUniverse m seed).card - (conn.card + 1)) * (numTris m + 1) +
                (numTris m + 1)
              = ((groupUniverse m seed).card - (conn.card + 1) + 1) *
                (numTris m + 1) := by ring
            _ = ((groupUniverse m seed).card - conn.card) * (numTris m + 1) := by
                rw [h2]
        by_cases hnorm : normalMatch m seed (groupPop f (x :: xs))
        · rw [if_pos hnorm]
          apply ih
          · unfold groupMeasure at hm ⊢
            rw [hcard, List.length_append, groupRest_length]
            have hnew := groupNew_length m seed (groupPop f (x :: xs))
              (insert (groupPop f (x :: xs)) conn)
            simp only [List.length_cons] at hm
            obtain ⟨A, hA⟩ : ∃ A,
                ((groupUniverse m seed).card - (conn.card + 1)) *
                  (numTris m + 1) = A := ⟨_, rfl⟩
            obtain ⟨B, hB⟩ : ∃ B,
                ((groupUniverse m seed).card - conn.card) *
                  (numTris m + 1) = B := ⟨_, rfl⟩
            rw [hA]
            rw [hA, hB] at hstep
            rw [hB] at hm
            omega
          · refine ⟨?_, ?_, ?_, hsub, ?_, ?_⟩
            · intro b hb
              rcases Finset.mem_insert.mp hb with h | h
              · rw [h]
                exact hreach_c
              · exact hinv.connReach b h
            · intro b hb
              rcases List.mem_append.mp hb with h | h
              · exact hinv.checkReach b (groupRest_subset f x xs b h)
              · obtain ⟨hbn, hbconn, hbnorm, hbshare⟩ :=
                  (mem_groupNew m seed _ _ b).mp h
                exact hreach_c.tail ⟨hnorm, hbnorm, hbshare, hbn⟩
            · intro a ha b hb
              rcases Finset.mem_insert.mp ha with h | h
              · by_cases hbc : b ∈ insert (groupPop f (x :: xs)) conn
                · exact Or.inl hbc
                · refine Or.inr (List.mem_append.mpr (Or.inr ?_))
                  rw [mem_groupNew]
                  obtain ⟨hna, hnb, hshare, hbn⟩ := hb
                  exact ⟨hbn, hbc, hnb, by rw [← h]; exact hshare⟩
              · rcases hinv.closed a h b hb with h2 | h2
                · exact Or.inl (Finset.mem_insert_of_mem h2)
                · rcases mem_pop_or_rest f x xs b h2 with h3 | h3
                  · exact Or.inl (by rw [h3]; exact Finset.mem_insert_self _ _)
                  · exact Or.inr (List.mem_append.mpr (Or.inl h3))
            · intro b hb
              rcases List.mem_append.mp hb with h | h
              · exact hinv.checkSub b (groupRest_subset f x xs b h)
              · obtain ⟨hbn, -, -, -⟩ := (mem_groupNew m seed _ _ b).mp h
                exact Finset.mem_insert_of_mem (Finset.mem_range.mpr hbn)
            · rcases hinv.seedIn with h | h
              · exact Or.inl (Finset.mem_insert_of_mem h)
              · rcases mem_pop_or_rest f x xs seed h with h2 | h2
                · exact Or.inl (by rw [h2]; exact Finset.mem_insert_self _ _)
                · exact Or.inr (List.mem_append.mpr (Or.inl h2))
        · rw [if_neg hnorm]
          apply ih
          · unfold groupMeasure at hm ⊢
            rw [hcard, groupRest_length]
            simp only [List.length_cons] at hm
            obtain ⟨A, hA⟩ : ∃ A,
                ((groupUniverse m seed).card - (conn.card + 1)) *
                  (numTris m + 1) = A := ⟨_, rfl⟩
            obtain ⟨B, hB⟩ : ∃ B,
                ((groupUniverse m seed).card - conn.card) *
                  (numTris m + 1) = B := ⟨_, rfl⟩
            rw [hA]
            rw [hA, hB] at hstep
            rw [hB] at hm
            omega
          · refine ⟨?_, ?_, ?_, hsub, ?_, ?_⟩
            · intro b hb
              rcases Finset.mem_insert.mp hb with h | h
              · rw [h]
                exact hreach_c
              · exact hinv.connReach b h
            · exact fun b hb => hinv.checkReach b (groupRest_subset f x xs b hb)
            · intro a ha b hb
              rcases Finset.mem_insert.mp ha with h | h
              · exact absurd hb.1 (by rw [h]; exact hnorm)
              · rcases hinv.closed a h b hb with h2 | h2
                · exact Or.inl (Finset.mem_insert_of_mem h2)
                · rcases mem_pop_or_rest f x xs b h2 with h3 | h3
                  · exact Or.inl (by rw [h3]; exact Finset.mem_insert_self _ _)
                  · exact Or.inr h3
            · exact fun b hb => hinv.checkSub b (groupRest_subset f x xs b hb)
            · rcases hinv.seedIn with h | h
              · exact Or.inl (Finset.mem_insert_of_mem h)
              · rcases mem_pop_or_rest f x xs seed h with h2 | h2
                · exact Or.inl (by rw [h2]; exact Finset.mem_insert_self _ _)
                · exact Or.inr h2

lemma findConnected_eq_reach (f : List ℕ → ℕ) (m : Mesh) (seed : ℕ) (t : ℕ) :
    t ∈ findConnectedTrianglesWith f m seed ↔
      Relation.ReflTransGen (groupEdge m seed) seed t := by
  unfold findConnectedTrianglesWith
  apply findConnectedLoop_spec
  · unfold groupMeasure
    have hU : (groupUniverse m seed).card ≤ numTris m + 1 := by
      unfold groupUniverse
      calc (insert seed (Finset.range (numTris m))).card
          ≤ (Finset.range (numTris m)).card + 1 := Finset.card_insert_le _ _
        _ = numTris m + 1 := by rw [Finset.card_range]
    have hmul : ((groupUniverse m seed).card - Finset.card (∅ : Finset ℕ)) * (numTris m + 1) ≤
        (numTris m + 1) * (numTris m + 1) := by
      simp only [Finset.card_empty, Nat.sub_zero]
      exact Nat.mul_le_mul_right _ hU
    obtain ⟨A, hA⟩ : ∃ A,
        ((groupUniverse m seed).card - Finset.card (∅ : Finset ℕ)) * (numTris m + 1) = A :=
      ⟨_, rfl⟩
    obtain ⟨B, hB⟩ : ∃ B, (numTris m + 1) * (numTris m + 1) = B := ⟨_, rfl⟩
    rw [hA]
    rw [hA, hB] at hmul
    rw [hB]
    simp only [List.length_singleton]
    omega
  · refine ⟨?_, ?_, ?_, ?_, ?_, ?_⟩
    · intro b hb
      simp at hb
    · intro b hb
      have hbs : b = seed := by simpa using hb
      rw [hbs]
    · intro a ha
      simp at ha
    · simp
    · intro b hb
      have hbs : b = seed := by simpa using hb
      rw [hbs]
      unfold groupUniverse
      exact Finset.mem_insert_self _ _
    · exact Or.inr (by simp)

/-- Flood fill in the words of the spec (§4.5): two triangles belong to
the same face when their normals are pairwise parallel within tolerance
(`dot(n_a, n_b) > 0.9999`) and they share a vertex position; for each
frontier triangle, unvisited triangles satisfying both predicates
against that frontier triangle are added to the frontier. -/
def specGroupLoop (m : Mesh) : ℕ → Finset ℕ → List ℕ → Finset ℕ
  | 0, conn, _ => conn
  | _ + 1, conn, [] => conn
  | fuel + 1, conn, c :: rest =>
    if c ∈ conn then specGroupLoop m fuel conn rest
    else
      specGroupLoop m fuel (insert c conn)
        (rest ++ (List.range (numTris m)).filter (fun o =>
          decide (o ∉ insert c conn ∧
            dot (normalOf m c) (normalOf m o) > 9999 / 10000 ∧
            sharesVertex m c o)))

/-- The spec's pairwise flood-fill closure of a seed triangle. -/
def specGroup (m : Mesh) (seed : ℕ) : Finset ℕ :=
  specGroupLoop m ((numTris m + 1) * (numTris m + 1) + 2) ∅ [seed]

/-- Three triangles in a chain: triangle 1 shares a vertex with 0 and 2;
the stored normals satisfy `dot(n0, n1) > 0.9999`, `dot(n1, n2) > 0.9999`
but `dot(n0, n2) = 0.9999` exactly (not greater). -/
def chainMesh : Mesh :=
  ⟨[⟨0, 0, 0⟩, ⟨1, 0, 0⟩, ⟨0, 1, 0⟩,
    ⟨1, 0, 0⟩, ⟨2, 0, 0⟩, ⟨1, 1, 0⟩,
    ⟨2, 0, 0⟩, ⟨3, 0, 0⟩, ⟨2, 1, 0⟩],
   [⟨1, 0, 0⟩, ⟨19999/20000, 9/1000, 0⟩, ⟨9999/10000, 18/1000, 0⟩]⟩

/-- The spec's test mesh: two coplanar vertex-adjacent triangles forming
a unit square, plus one unrelated triangle with a different normal. -/
def squareMesh : Mesh :=
  ⟨[⟨0, 0, 0⟩, ⟨1, 0, 0⟩, ⟨1, 1, 0⟩,
    ⟨0, 0, 0⟩, ⟨1, 1, 0⟩, ⟨0, 1, 0⟩,
    ⟨5, 5, 5⟩, ⟨6, 5, 5⟩, ⟨5, 6, 5⟩],
   [⟨0, 0, 1⟩, ⟨0, 0, 1⟩, ⟨0, 0, -1⟩]⟩

attribute [local semireducible] Rat.add Rat.mul Rat.sub Rat.inv Rat.ofScientific in
/-- C2 counterexample: on the chain mesh the code's grouping stops at
triangle 1 (its normal test always compares against the seed's normal),
while the spec's pairwise flood-fill closure also reaches triangle 2, so
the claimed equality with the pairwise closure fails. -/
theorem group_ne_pairwise_closure :
    findConnectedTriangles chainMesh 0 = {0, 1} ∧
    specGroup chainMesh 0 = {0, 1, 2} ∧
    findConnectedTriangles chainMesh 0 ≠ specGroup chainMesh 0 := by
  refine ⟨by decide, by decide, by decide⟩

attribute [local semireducible] Rat.add Rat.mul Rat.sub Rat.inv Rat.ofScientific in
/-- C2 amended: the grouping returns exactly the flood-fill closure of
the seed under the relation requiring the seed-normal test
(`dot(n_seed, ·) > 0.9999`) of both endpoints plus a shared vertex; on
the two-coplanar-triangles-plus-unrelated-triangle mesh it returns
`{0, 1}` and never contains triangle 2. -/
theorem group_eq_seed_normal_closure :
    (∀ (m : Mesh) (seed t : ℕ),
      t ∈ findConnectedTriangles m seed ↔
        Relation.ReflTransGen (groupEdge m seed) seed t) ∧
    findConnectedTriangles squareMesh 0 = {0, 1} ∧
    2 ∉ findConnectedTriangles squareMesh 0 := by
  refine ⟨fun m seed t => findConnected_eq_reach _ m seed t, by decide, by decide⟩

/-- C9: the grouping result does not depend on the order in which the
worklist set pops its elements — for any two pop selectors the returned
set is the same, so `group` is a deterministic pure function of the mesh
and the seed. -/
theorem group_deterministic (f₁ f₂ : List ℕ → ℕ) (m : Mesh) (seed : ℕ) :
    findConnectedTrianglesWith f₁ m seed = findConnectedTrianglesWith f₂ m seed := by
  ext t
  rw [findConnected_eq_reach, findConnected_eq_reach]

/-- C10: the seed triangle always belongs to its own group, and every
other member's normal passes the seed-normal test
`dot(n_seed, n) > 0.9999` — membership is judged against the seed's
normal, never pairwise between adjacent members. -/
theorem group_members_match_seed_normal (f : List ℕ → ℕ) (m : Mesh) (seed : ℕ) :
    seed ∈ findConnectedTrianglesWith f m seed ∧
    ∀ t ∈ findConnectedTrianglesWith f m seed, t ≠ seed →
      dot (normalOf m seed) (normalOf m t) > 9999 / 10000 := by
  constructor
  · exact (findConnected_eq_reach f m seed seed).mpr Relation.ReflTransGen.refl
  · intro t ht hne
    have hreach := (findConnected_eq_reach f m seed t).mp ht
    rcases Relation.ReflTransGen.cases_tail hreach with h | ⟨b, hb, hedge⟩
    · exact absurd h hne
    · exact hedge.2.1

attribute [local semireducible] Rat.add Rat.mul Rat.sub Rat.inv Rat.ofScientific in
theorem group_members_match_seed_normal_witness :
    0 ∈ findConnectedTrianglesWith (fun _ => 0) squareMesh 0 ∧
    dot (normalOf squareMesh 0) (normalOf squareMesh 1) > 9999 / 10000 :=
  ⟨(group_members_match_seed_normal (fun _ => 0) squareMesh 0).1,
   (group_members_match_seed_normal (fun _ => 0) squareMesh 0).2 1
     (by decide) (by decide)⟩

/- ----------------------------------------------------------------
Mesh store and highlight controller (`Render.__init__`,
`Render.handle_click`, `Render.update_highlight_timer`).
---------------------------------------------------------------- -/

/-- The default vertex color, `[0.0, 0.0, 1.0]` (blue). -/
def blue : Vec3 := ⟨0, 0, 1⟩

/-- The highlight vertex color, `[1.0, 0.0, 0.0]` (red). -/
def red : Vec3 := ⟨1, 0, 0⟩

/-- The data read from an STL file: the triangle array
(`stl_mesh.vectors`) and the per-triangle normals (`stl_mesh.normals`). -/
structure StlFile where
  vectors : List (Vec3 × Vec3 × Vec3)
  normals : List Vec3

/-- `stl_mesh.vectors.reshape(-1, 3)`: the flat vertex-row list. -/
def flattenVectors : List (Vec3 × Vec3 × Vec3) → List Vec3
  | [] => []
  | (v0, v1, v2) :: rest => v0 :: v1 :: v2 :: flattenVectors rest

/-- `Render.load_model` on an STL file. -/
def loadModel (fileData : StlFile) : Mesh :=
  ⟨flattenVectors fileData.vectors, fileData.normals⟩

/-- The observable state built by `Render.__init__` (the mesh store, the
volumetric properties, the display ratio, the color buffer modelled as a
total index-to-color map, and the highlight state). -/
structure Render where
  center : Vec3
  volume : ℚ
  ratio : ℚ
  model : Mesh
  vertexColors : ℕ → Vec3
  highlightEndTime : ℕ
  highlighted : Finset ℕ

/-- The state built by a successful `Render.__init__` from the computed
`(center, volume)`: `ratio = volume / 1000 / 7500`, the loaded model,
the all-blue color buffer and an empty highlight. -/
def renderOf (fileData : StlFile) (cv : Vec3 × ℚ) : Render :=
  { center := cv.1
    volume := cv.2
    ratio := cv.2 / 1000 / 7500
    model := loadModel fileData
    vertexColors := fun _ => blue
    highlightEndTime := 0
    highlighted := ∅ }

/-- The load sequence of `Render.__init__`: compute the volumetric
properties (which raises on a numerically-zero volume, aborting the
whole constructor before any buffer is populated), then build the full
render state. -/
def mkRender (fileData : StlFile) : Except String Render :=
  match computeVolumetricProperties fileData.vectors with
  | Except.error e => Except.error e
  | Except.ok cv => Except.ok (renderOf fileData cv)

/-- C6: a numerically-zero total volume (`np.isclose(total, 0)`, i.e.
`|total| ≤ 1e-8`) makes the load fail with the data error and no `Render`
value is built at all (no partially populated buffers, no ratio);
conversely a numerically nonzero volume yields a fully populated state
with no error. -/
theorem zero_volume_load_fails (fileData : StlFile) :
    (|(volumetricFold fileData.vectors).1| ≤ 1 / 100000000 →
      mkRender fileData =
        Except.error
          ("Calculated volume is zero; ensure the STL mesh is closed and valid.")) ∧
    (1 / 100000000 < |(volumetricFold fileData.vectors).1| →
      ∃ r : Render, mkRender fileData = Except.ok r ∧
        r.volume = (volumetricFold fileData.vectors).1 ∧
        r.ratio = r.volume / 1000 / 7500 ∧
        r.model = loadModel fileData ∧
        (∀ i, r.vertexColors i = blue) ∧
        r.highlighted = ∅) := by
  constructor
  · intro h
    have hcv : computeVolumetricProperties fileData.vectors =
        Except.error
          ("Calculated volume is zero; ensure the STL mesh is closed and valid.") := by
      unfold computeVolumetricProperties
      rw [if_pos h]
    unfold mkRender
    rw [hcv]
  · intro h
    have hcv : computeVolumetricProperties fileData.vectors =
        Except.ok (smul (1 / (volumetricFold fileData.vectors).1)
            (volumetricFold fileData.vectors).2,
          (volumetricFold fileData.vectors).1) := by
      unfold computeVolumetricProperties
      rw [if_neg (not_le.mpr h)]
    refine ⟨renderOf fileData
        (smul (1 / (volumetricFold fileData.vectors).1)
            (volumetricFold fileData.vectors).2,
          (volumetricFold fileData.vectors).1),
      ?_, rfl, rfl, rfl, fun i => rfl, rfl⟩
    unfold mkRender
    rw [hcv]

/-- The 12 per-triangle outward normals of `cubeTris`. -/
def cubeNormals : List Vec3 :=
  [⟨1, 0, 0⟩, ⟨1, 0, 0⟩, ⟨-1, 0, 0⟩, ⟨-1, 0, 0⟩,
   ⟨0, 1, 0⟩, ⟨0, 1, 0⟩, ⟨0, -1, 0⟩, ⟨0, -1, 0⟩,
   ⟨0, 0, 1⟩, ⟨0, 0, 1⟩, ⟨0, 0, -1⟩, ⟨0, 0, -1⟩]

/-- An empty STL file (no triangles, volume 0). -/
def emptyStl : StlFile := ⟨[], []⟩

/-- The unit-cube STL file. -/
def cubeStl : StlFile := ⟨cubeTris, cubeNormals⟩

attribute [local semireducible] Rat.add Rat.mul Rat.sub Rat.inv Rat.ofScientific in
theorem zero_volume_load_fails_witness :
    mkRender emptyStl =
      Except.error
        ("Calculated volume is zero; ensure the STL mesh is closed and valid.") ∧
    (∃ r : Render, mkRender cubeStl = Except.ok r ∧
      r.volume = (volumetricFold cubeStl.vectors).1 ∧
      r.ratio = r.volume / 1000 / 7500 ∧
      r.model = loadModel cubeStl ∧
      (∀ i, r.vertexColors i = blue) ∧
      r.highlighted = ∅) :=
  ⟨(zero_volume_load_fails emptyStl).1 (by decide),
   (zero_volume_load_fails cubeStl).2 (by decide)⟩

/-- Per-triangle color assignment
`vertex_colors[3*t : 3*t+3] = color`. -/
def paintTriangle (colors : ℕ → Vec3) (t : ℕ) (col : Vec3) : ℕ → Vec3 :=
  fun i => if 3 * t ≤ i ∧ i < 3 * t + 3 then col else colors i

/-- The per-region color loop (`for triangle_idx in ...`). -/
def paintRegion (colors : ℕ → Vec3) (l : List ℕ) (col : Vec3) : ℕ → Vec3 :=
  l.foldl (fun cs t => paintTriangle cs t col) colors

/-- `Render.handle_click`: on a hit, group the hit triangle, reset the
whole color buffer to blue, paint the group red, arm the 1000 ms timer
and record the highlighted set; on a miss, do nothing. -/
def handleClick (r : Render) (rayOrigin rayDir : Vec3) (now : ℕ) : Render :=
  match handleClickPick r.model rayOrigin rayDir with
  | none => r
  | some closestTriangle =>
    { r with
      vertexColors :=
        paintRegion (fun _ => blue)
          ((findConnectedTriangles r.model closestTriangle).sort (fun a b => a ≤ b)) red
      highlightEndTime := now + 1000
      highlighted := findConnectedTriangles r.model closestTriangle }

/-- `Render.update_highlight_timer`: once the polled time exceeds the
stored expiry and a highlight is active, repaint the highlighted
triangles blue and clear the set. -/
def updateHighlightTimer (r : Render) (currentTime : ℕ) : Render :=
  if currentTime > r.highlightEndTime ∧ r.highlighted.Nonempty then
    { r with
      vertexColors := paintRegion r.vertexColors (r.highlighted.sort (fun a b => a ≤ b)) blue
      highlighted := ∅ }
  else r

/-- C7: a pick miss leaves the whole observable state (colors, highlight
set, expiry) exactly as it was: the click handler is a no-op. -/
theorem pick_miss_noop (r : Render) (rayOrigin rayDir : Vec3) (now : ℕ)
    (h : handleClickPick r.model rayOrigin rayDir = none) :
    handleClick r rayOrigin rayDir now = r := by
  unfold handleClick
  rw [h]

/-- A concrete render state over the one-triangle test mesh. -/
def testRender : Render :=
  { center := vzero, volume := 1, ratio := 1 / 1000 / 7500, model := testMesh,
    vertexColors := fun _ => blue, highlightEndTime := 0, highlighted := ∅ }

attribute [local semireducible] Rat.add Rat.mul Rat.sub Rat.inv Rat.ofScientific in
theorem pick_miss_noop_witness :
    handleClick testRender ⟨5, 5, 1⟩ ⟨0, 0, -1⟩ 0 = testRender :=
  pick_miss_noop testRender ⟨5, 5, 1⟩ ⟨0, 0, -1⟩ 0 (by decide)

lemma paintRegion_apply (col : Vec3) :
    ∀ (l : List ℕ) (colors : ℕ → Vec3) (i : ℕ),
      paintRegion colors l col i =
        if ∃ t ∈ l, 3 * t ≤ i ∧ i < 3 * t + 3 then col else colors i := by
  intro l
  induction l with
  | nil =>
    intro colors i
    simp [paintRegion]
  | cons x xs ih =>
    intro colors i
    rw [show paintRegion colors (x :: xs) col =
        paintRegion (paintTriangle colors x col) xs col from rfl]
    rw [ih]
    by_cases hxs : ∃ t ∈ xs, 3 * t ≤ i ∧ i < 3 * t + 3
    · rw [if_pos hxs]
      have hcons : ∃ t ∈ x :: xs, 3 * t ≤ i ∧ i < 3 * t + 3 := by
        obtain ⟨t, ht, h2⟩ := hxs
        exact ⟨t, List.mem_cons_of_mem _ ht, h2⟩
      rw [if_pos hcons]
    · rw [if_neg hxs]
      unfold paintTriangle
      by_cases hx : 3 * x ≤ i ∧ i < 3 * x + 3
      · rw [if_pos hx]
        have hcons : ∃ t ∈ x :: xs, 3 * t ≤ i ∧ i < 3 * t + 3 :=
          ⟨x, List.mem_cons_self x xs, hx⟩
        rw [if_pos hcons]
      · rw [if_neg hx]
        have hcons : ¬ ∃ t ∈ x :: xs, 3 * t ≤ i ∧ i < 3 * t + 3 := by
          rintro ⟨t, ht, h2⟩
          rcases List.mem_cons.mp ht with h | h
          · rw [h] at h2
            exact hx h2
          · exact hxs ⟨t, h, h2⟩
        rw [if_neg hcons]

/-- C5: after a successful pick of region `R`, every color entry
`3*t .. 3*t+2` for `t ∈ R` equals the highlight color immediately, every
entry outside `R` holds the default color, the expiry is `now + 1000` and
the highlighted set is `R`; once the polled time exceeds the expiry, the
timer check restores every entry to the default color and empties the
set. -/
theorem highlight_paint_and_expiry (r : Render) (rayOrigin rayDir : Vec3)
    (now later idx : ℕ)
    (hpick : handleClickPick r.model rayOrigin rayDir = some idx)
    (hlater : now + 1000 < later) :
    (∀ t ∈ findConnectedTriangles r.model idx, ∀ k < 3,
      (handleClick r rayOrigin rayDir now).vertexColors (3 * t + k) = red) ∧
    (∀ i, (∀ t ∈ findConnectedTriangles r.model idx,
        ¬(3 * t ≤ i ∧ i < 3 * t + 3)) →
      (handleClick r rayOrigin rayDir now).vertexColors i = blue) ∧
    (handleClick r rayOrigin rayDir now).highlighted =
      findConnectedTriangles r.model idx ∧
    (handleClick r rayOrigin rayDir now).highlightEndTime = now + 1000 ∧
    (∀ i, (updateHighlightTimer (handleClick r rayOrigin rayDir now)
        later).vertexColors i = blue) ∧
    (updateHighlightTimer (handleClick r rayOrigin rayDir now)
        later).highlighted = ∅ := by
  have hidx : idx ∈ findConnectedTriangles r.model idx := by
    unfold findConnectedTriangles
    exact (findConnected_eq_reach _ r.model idx idx).mpr Relation.ReflTransGen.refl
  have hclick : handleClick r rayOrigin rayDir now =
      { r with
        vertexColors := paintRegion (fun _ => blue)
          ((findConnectedTriangles r.model idx).sort (fun a b => a ≤ b)) red
        highlightEndTime := now + 1000
        highlighted := findConnectedTriangles r.model idx } := by
    unfold handleClick
    rw [hpick]
  have hcov : ∀ i, paintRegion (fun _ => blue)
      ((findConnectedTriangles r.model idx).sort (fun a b => a ≤ b)) red i =
      if ∃ t ∈ findConnectedTriangles r.model idx, 3 * t ≤ i ∧ i < 3 * t + 3
      then red else blue := by
    intro i
    rw [paintRegion_apply]
    by_cases hc : ∃ t ∈ findConnectedTriangles r.model idx,
        3 * t ≤ i ∧ i < 3 * t + 3
    · rw [if_pos hc]
      obtain ⟨t, ht, h2⟩ := hc
      rw [if_pos ⟨t, (Finset.mem_sort _).mpr ht, h2⟩]
    · rw [if_neg hc]
      have hs : ¬ ∃ t ∈ (findConnectedTriangles r.model idx).sort
          (fun a b => a ≤ b), 3 * t ≤ i ∧ i < 3 * t + 3 := by
        rintro ⟨t, ht, h2⟩
        exact hc ⟨t, (Finset.mem_sort _).mp ht, h2⟩
      rw [if_neg hs]
  rw [hclick]
  refine ⟨?_, ?_, rfl, rfl, ?_, ?_⟩
  · intro t ht k hk
    simp only
    rw [hcov]
    rw [if_pos ⟨t, ht, by omega⟩]
  · intro i hout
    simp only
    rw [hcov]
    rw [if_neg (by rintro ⟨t, ht, h2⟩; exact hout t ht h2)]
  · intro i
    unfold updateHighlightTimer
    rw [if_pos ⟨by simp only; omega, ⟨idx, hidx⟩⟩]
    simp only
    rw [paintRegion_apply]
    by_cases hc : ∃ t ∈ (findConnectedTriangles r.model idx).sort
        (fun a b => a ≤ b), 3 * t ≤ i ∧ i < 3 * t + 3
    · rw [if_pos hc]
    · rw [if_neg hc]
      rw [hcov]
      rw [if_neg (by
        rintro ⟨t, ht, h2⟩
        exact hc ⟨t, (Finset.mem_sort _).mpr ht, h2⟩)]
  · unfold updateHighlightTimer
    rw [if_pos ⟨by simp only; omega, ⟨idx, hidx⟩⟩]

attribute [local semireducible] Rat.add Rat.mul Rat.sub Rat.inv Rat.ofScientific in
theorem highlight_paint_and_expiry_witness :
    (∀ t ∈ findConnectedTriangles testRender.model 0, ∀ k < 3,
      (handleClick testRender ⟨1/4, 1/4, 1⟩ ⟨0, 0, -1⟩ 0).vertexColors
        (3 * t + k) = red) ∧
    (∀ i, (∀ t ∈ findConnectedTriangles testRender.model 0,
        ¬(3 * t ≤ i ∧ i < 3 * t + 3)) →
      (handleClick testRender ⟨1/4, 1/4, 1⟩ ⟨0, 0, -1⟩ 0).vertexColors i = blue) ∧
    (handleClick testRender ⟨1/4, 1/4, 1⟩ ⟨0, 0, -1⟩ 0).highlighted =
      findConnectedTriangles testRender.model 0 ∧
    (handleClick testRender ⟨1/4, 1/4, 1⟩ ⟨0, 0, -1⟩ 0).highlightEndTime =
      0 + 1000 ∧
    (∀ i, (updateHighlightTimer
        (handleClick testRender ⟨1/4, 1/4, 1⟩ ⟨0, 0, -1⟩ 0) 1001).vertexColors
          i = blue) ∧
    (updateHighlightTimer (handleClick testRender ⟨1/4, 1/4, 1⟩ ⟨0, 0, -1⟩ 0)
        1001).highlighted = ∅ :=
  highlight_paint_and_expiry testRender ⟨1/4, 1/4, 1⟩ ⟨0, 0, -1⟩ 0 1001 0
    (by decide) (by decide)

end PyRoom
